import Mathlib

/-!
Shallow embedding of the autodocs crawler core (apps/crawler) and proofs
about it.  Byte strings are modelled as lists of naturals, Go float64
threshold comparisons are modelled as exact rational or integer
comparisons (the comparisons in the source compare ratios of small
integers against constant literals, where both readings agree on all
inputs the code can see, as noted at each definition), and the
concurrent parts (worker pool submission, stop, retry loop) are modelled
as fueled interpreters over explicit environment oracles that resolve
each channel select.
-/

/-! ## Content filter (internal/worker/pool.go, IsBinaryContent) -/

/-- One byte of the 8 KiB sample counted as non-printable by the source:
the Go condition is b < 9, or 13 < b < 32, or b > 126, i.e. everything
outside [9,13] and [32,126]. -/
def isNonPrintableByte (b : Nat) : Bool :=
  b < 9 || (13 < b && b < 32) || 126 < b

/-- IsBinaryContent from pool.go: empty content is not binary; otherwise
the first 8192 bytes are sampled, any zero byte means binary, and
otherwise the content is binary when strictly more than 30 percent of
the sampled bytes are non-printable.  The Go code compares
float64(nonPrintable)/float64(len(sample)) against the literal 0.30;
since len(sample) is at most 8192, distinct ratios differ by more than
any rounding error of that division, so the float comparison coincides
with the exact comparison 10 * nonPrintable > 3 * len(sample) used
here. -/
def IsBinaryContent (content : List Nat) : Bool :=
  if content.length = 0 then false
  else
    let sample := content.take 8192
    if sample.any (fun b => b = 0) then true
    else
      let nonPrintable := (sample.filter isNonPrintableByte).length
      decide (10 * nonPrintable > 3 * sample.length)

/-- Modelled from the spec, for comparison with IsBinaryContent: a byte
counts against the 30 percent budget when it lies outside the set
containing 0x09, 0x0A, 0x0D and the range 0x20 to 0x7E. -/
def specNonTextByte (b : Nat) : Bool :=
  !(b = 9 || b = 10 || b = 13 || (32 ≤ b && b ≤ 126))

/-- Modelled from the spec, for comparison with IsBinaryContent: binary
iff within the first 8 KiB some byte is zero or strictly more than 30
percent of the inspected bytes lie outside the spec text-byte set. -/
def specIsBinaryContent (content : List Nat) : Bool :=
  let sample := content.take 8192
  sample.any (fun b => b = 0) ||
    decide (10 * (sample.filter specNonTextByte).length > 3 * sample.length)

/-! ## Memory monitor (internal/worker/pool_enhanced.go, monitorMemory) -/

/-- Pause or resume request issued to the worker pool. -/
inductive PoolAction
  | doPause
  | doResume
  deriving DecidableEq, Repr

/-- One 5-second tick of monitorMemory from pool_enhanced.go, acting on
the memoryPressure flag given the sampled allocated bytes and the
memory limit.  The Go code compares float64(currentUse) against
float64(memoryLimit)*0.9 and *0.7; this is modelled as the exact
comparisons 10*use > 9*limit and 10*use < 7*limit.  Returns the new
flag value and the pause or resume request made, if any. -/
def monitorMemoryStep (memoryPressure : Bool) (currentUse memoryLimit : Nat) :
    Bool × Option PoolAction :=
  if 10 * currentUse > 9 * memoryLimit then
    if !memoryPressure then (true, some .doPause) else (memoryPressure, none)
  else if 10 * currentUse < 7 * memoryLimit then
    if memoryPressure then (false, some .doResume) else (memoryPressure, none)
  else (memoryPressure, none)

/-! ## Base pool Start (internal/worker/pool.go, Start) -/

/-- The part of the base pool state that Start reads and writes. -/
structure BasePoolState where
  activeWorkers : Nat
  deriving DecidableEq, Repr

/-- Start from pool.go: under the mutex, if activeWorkers > 0 it returns
the error string without touching the pool; otherwise it spawns
maxWorkers workers, incrementing activeWorkers once per worker.  The
model returns the call outcome together with the post state. -/
def poolStart (maxWorkers : Nat) (s : BasePoolState) :
    Except String Unit × BasePoolState :=
  if s.activeWorkers > 0 then
    (Except.error "worker pool is already running", s)
  else
    (Except.ok (), { s with activeWorkers := s.activeWorkers + maxWorkers })

/-! ## Per-task processing (internal/worker/pool.go, processTask) -/

/-- A fetch task as carried on the task channel (model.WorkerTask). -/
structure WorkerTask where
  path : List Nat
  sha : List Nat
  size : Nat
  deriving DecidableEq, Repr

/-- The failure kinds a worker can attach to a result in processTask. -/
inductive TaskFailure
  | oversizeSkip
  | fetchFailed
  | binarySkipped
  | invalidEncoding
  deriving DecidableEq, Repr

/-- A per-file result as published on the result channel
(model.FileResult, with the error field abstracted to a failure kind). -/
structure FileResult where
  path : List Nat
  size : Nat
  content : Option (List Nat)
  failure : Option TaskFailure
  deriving DecidableEq, Repr

/-- processTask from pool.go.  The oversize check compares
int64(task.Size) against config.MaxFileSize before anything else; only
past it is the fetch performed, here represented by the oracle
fetch () : none for a fetch error, some bytes for success.  UTF-8
validity of the Go standard library is abstracted as the utf8Valid
oracle, which the claims below never need to inspect. -/
def processTask (maxFileSize : Int) (enableBinaryDetection : Bool)
    (utf8Valid : List Nat → Bool) (task : WorkerTask)
    (fetch : Unit → Option (List Nat)) : FileResult :=
  if (task.size : Int) > maxFileSize then
    { path := task.path, size := task.size, content := none,
      failure := some .oversizeSkip }
  else
    match fetch () with
    | none =>
      { path := task.path, size := task.size, content := none,
        failure := some .fetchFailed }
    | some content =>
      if enableBinaryDetection && IsBinaryContent content then
        { path := task.path, size := task.size, content := none,
          failure := some .binarySkipped }
      else if !(utf8Valid content) then
        { path := task.path, size := task.size, content := none,
          failure := some .invalidEncoding }
      else
        { path := task.path, size := content.length, content := some content,
          failure := none }

/-! ## Enumeration-time file filter (internal/worker/pool.go,
shouldProcessFile and IsAllowedFileType), with the allow-list
normalization from internal/config/config.go Load -/

/-- ASCII lowering of one byte, the effect of strings.ToLower on the
ASCII paths and extension lists the filter sees. -/
def toLowerByte (b : Nat) : Nat :=
  if 65 ≤ b ∧ b ≤ 90 then b + 32 else b

/-- strings.ToLower on a byte string. -/
def toLowerStr (s : List Nat) : List Nat :=
  s.map toLowerByte

/-- Byte string of a Lean string literal, for writing paths and the
special-filename table. -/
def strBytes (s : String) : List Nat :=
  s.toList.map Char.toNat

/-- Backward scan of filepath.Ext over the reversed path: stop with
nothing at a path separator (47), return the suffix from the last dot
(46) inclusive when one is found first. -/
def extScan : List Nat → List Nat → List Nat
  | [], _ => []
  | b :: rest, acc =>
    if b = 47 then []
    else if b = 46 then b :: acc
    else extScan rest (b :: acc)

/-- filepath.Ext from the Go standard library: the suffix of the final
path element starting at its last dot, empty when the final element has
no dot. -/
def filepathExt (path : List Nat) : List Nat :=
  extScan path.reverse []

/-- filepath.Base from the Go standard library on slash-separated
paths: dot for the empty path, the separator for an all-separator path,
otherwise the final element with trailing separators removed. -/
def filepathBase (path : List Nat) : List Nat :=
  if path = [] then [46]
  else
    let rev := path.reverse.dropWhile (fun b => b = 47)
    if rev = [] then [47]
    else (rev.takeWhile (fun b => b ≠ 47)).reverse

/-- The fixed special-filename table of IsAllowedFileType in pool.go. -/
def specialFiles : List (List Nat) :=
  [ "dockerfile", "makefile", "rakefile", "gemfile", "guardfile",
    "capfile", "berksfile", "cheffile", "vagrantfile", "fastfile",
    "appfile", "deliverfile", "matchfile", "gymfile", "scanfile",
    "snapfile", "podfile", "cartfile", "brewfile", "requirements.txt",
    "setup.py", "setup.cfg", "pyproject.toml", "pipfile", "poetry.lock",
    "package.json", "package-lock.json", "yarn.lock", "pnpm-lock.yaml",
    "composer.json", "composer.lock", "go.mod", "go.sum", "cargo.toml",
    "cargo.lock", "build.gradle", "pom.xml", "build.sbt", "mix.exs",
    "deps.edn", "project.clj", "stack.yaml", "cabal.project"
  ].map strBytes

/-- IsAllowedFileType from pool.go: with an empty allow-list everything
passes; otherwise the lowercased extension must equal one of the
configured entries, or the lowercased basename must be one of the
special filenames. -/
def IsAllowedFileType (allowedExtensions : List (List Nat)) (path : List Nat) :
    Bool :=
  if allowedExtensions.isEmpty then true
  else
    let ext := toLowerStr (filepathExt path)
    let filename := toLowerStr (filepathBase path)
    allowedExtensions.any (fun e => e = ext) ||
      specialFiles.any (fun sp => sp = filename)

/-- shouldProcessFile from pool.go: with path filters supplied the path
must literally start with at least one of them, and with a non-empty
allow-list it must additionally pass IsAllowedFileType. -/
def shouldProcessFile (allowedExtensions : List (List Nat)) (path : List Nat)
    (pathFilter : List (List Nat)) : Bool :=
  (pathFilter.isEmpty || pathFilter.any (fun f => path.take f.length = f)) &&
    (allowedExtensions.isEmpty || IsAllowedFileType allowedExtensions path)

/-- ASCII whitespace, the effect of strings.TrimSpace on the
extension entries the configuration sees. -/
def isSpaceByte (b : Nat) : Bool :=
  b = 32 || b = 9 || b = 10 || b = 11 || b = 12 || b = 13

/-- strings.TrimSpace on a byte string. -/
def trimSpaceStr (s : List Nat) : List Nat :=
  ((s.dropWhile isSpaceByte).reverse.dropWhile isSpaceByte).reverse

/-- The per-entry normalization config.Load applies to the allow-list:
trim, lowercase, and prepend a dot when missing. -/
def normalizeExtension (s : List Nat) : List Nat :=
  let t := toLowerStr (trimSpaceStr s)
  if t.take 1 = [46] then t else 46 :: t

/-! ## Adaptive rate limiter (internal/worker/pool_enhanced.go,
NewEnhancedPool and UpdateRateLimitFromHeaders; the streaming client
variant from internal/github/client_enhanced.go) -/

/-- The AdaptiveRateLimiter fields, with rates in requests per second
and timestamps in seconds, both as exact rationals in place of Go
float64 and time.Time. -/
structure AdaptiveRateLimiter where
  currentRate : ℚ
  minRate : ℚ
  maxRate : ℚ
  adjustmentFactor : ℚ
  backoffMultiplier : ℚ
  lastAdjustment : ℚ
  deriving DecidableEq, Repr

/-- The adaptiveRateLimit literal built in NewEnhancedPool: initial rate
is the configured hourly API quota divided by 3600, bounds are the
hard-coded 1.0 and 100.0, speedup factor 0.1, slowdown multiplier
0.5. -/
def newAdaptiveRateLimiter (apiRateLimitThreshold : Nat) : AdaptiveRateLimiter :=
  { currentRate := (apiRateLimitThreshold : ℚ) / 3600
    minRate := 1
    maxRate := 100
    adjustmentFactor := 1 / 10
    backoffMultiplier := 1 / 2
    lastAdjustment := 0 }

/-- The clamp at the end of UpdateRateLimitFromHeaders. -/
def clampRate (st : AdaptiveRateLimiter) (r : ℚ) : ℚ :=
  if r < st.minRate then st.minRate
  else if r > st.maxRate then st.maxRate
  else r

/-- UpdateRateLimitFromHeaders from pool_enhanced.go, restricted to the
adaptive-rate-limiter state it modifies.  Usage fraction is
(limit - remaining)/limit; above 0.8 the rate is multiplied by the
backoff multiplier, below 0.5 with strictly more than five minutes
(300 s) since the last adjustment it is multiplied by one plus the
adjustment factor; the result is clamped to [minRate, maxRate] and the
adjustment timestamp always becomes now. -/
def UpdateRateLimitFromHeaders (st : AdaptiveRateLimiter)
    (remaining limit : Int) (now : ℚ) : AdaptiveRateLimiter :=
  let usagePercent : ℚ := ((limit : ℚ) - (remaining : ℚ)) / (limit : ℚ)
  let adjusted :=
    if usagePercent > 8 / 10 then st.currentRate * st.backoffMultiplier
    else if usagePercent < 5 / 10 ∧ now - st.lastAdjustment > 300 then
      st.currentRate * (1 + st.adjustmentFactor)
    else st.currentRate
  { st with currentRate := clampRate st adjusted, lastAdjustment := now }

/-- Modelled from the spec, for comparison with
UpdateRateLimitFromHeaders: above 0.8 multiply by 0.5, below 0.3 with
at least five minutes since the last adjustment multiply by 1.1,
otherwise leave the rate unchanged. -/
def specObserveRate (st : AdaptiveRateLimiter) (remaining limit : Int)
    (now : ℚ) : AdaptiveRateLimiter :=
  let usedFraction : ℚ := ((limit : ℚ) - (remaining : ℚ)) / (limit : ℚ)
  let adjusted :=
    if usedFraction > 8 / 10 then st.currentRate * (1 / 2)
    else if usedFraction < 3 / 10 ∧ now - st.lastAdjustment ≥ 300 then
      st.currentRate * (11 / 10)
    else st.currentRate
  { st with currentRate := clampRate st adjusted, lastAdjustment := now }

/-- updateAdaptiveRateLimit from client_enhanced.go, the second
header-driven adjustment path: no time gate, speedup cutoff 0.3 with
factor 1.2, bounds 0.5 and 50; a non-positive limit leaves the rate
untouched. -/
def updateAdaptiveRateLimitClient (currentLimit : ℚ) (remaining limit : Int) :
    ℚ :=
  if limit > 0 then
    let usagePercent : ℚ := ((limit : ℚ) - (remaining : ℚ)) / (limit : ℚ)
    let newLimit :=
      if usagePercent > 8 / 10 then currentLimit * (1 / 2)
      else if usagePercent < 3 / 10 then currentLimit * (12 / 10)
      else currentLimit
    if newLimit < 1 / 2 then 1 / 2
    else if newLimit > 50 then 50
    else newLimit
  else currentLimit

/-- One observation fed to the adaptive limiter: the two quota header
values and the observation time. -/
structure RateObservation where
  remaining : Int
  limit : Int
  now : ℚ
  deriving DecidableEq, Repr

/-- A sequence of header observations applied in order. -/
def runObservations (st : AdaptiveRateLimiter) (obs : List RateObservation) :
    AdaptiveRateLimiter :=
  obs.foldl (fun s o => UpdateRateLimitFromHeaders s o.remaining o.limit o.now) st

/-! ## Retrying fetch client (internal/github/client.go,
makeRequestWithRetry) -/

/-- What one HTTP attempt can produce, as seen by the retry loop: a
transport-level network error, or a response with a status code
together with whether the response handler returned nil.  The handler
includes the raw-to-API fallback of GetFileContent, so it can succeed
on a non-2xx raw status. -/
inductive AttemptResult
  | netErr
  | httpResp (status : Nat) (handlerOk : Bool)
  deriving DecidableEq, Repr

/-- How the retry loop of makeRequestWithRetry can exit. -/
inductive RetryOutcome
  | success
  | cancelled
  | handlerFailed (status : Nat)
  | retriesExhausted
  deriving DecidableEq, Repr

/-- Trace of one call to makeRequestWithRetry: how many requests were
issued, the backoff sleeps completed between them in order, and the
exit. -/
structure RetryTrace where
  attempts : Nat
  sleeps : List Nat
  outcome : RetryOutcome
  deriving DecidableEq, Repr

/-- The retry condition of makeRequestWithRetry: the Go code continues
the loop when resp.StatusCode >= 500 or == 429 and the handler
errored. -/
def retryCondStatus (status : Nat) : Bool :=
  500 ≤ status || status = 429

/-- Whether an attempt result sends the Go loop into another
iteration: network errors always, responses only when the handler
failed with a retryable status. -/
def shouldRetry : AttemptResult → Bool
  | .netErr => true
  | .httpResp status handlerOk => !handlerOk && retryCondStatus status

/-- The makeRequestWithRetry for-loop from its second iteration on:
every iteration here has attempt > 0, so it first selects between
ctx.Done and time.After(backoff), doubling backoff after a completed
sleep, and then issues the request.  remaining counts the iterations
the loop bound still allows, attempt is the Go loop index (also
indexing the environment of attempt results and the cancellation
schedule). -/
def retryRest (env : Nat → AttemptResult) (cancelAt : Nat → Bool) :
    Nat → Nat → Nat → RetryTrace
  | 0, _, _ => ⟨0, [], .retriesExhausted⟩
  | remaining + 1, attempt, backoff =>
    if cancelAt attempt then ⟨0, [], .cancelled⟩
    else
      match env attempt with
      | .netErr =>
        let t := retryRest env cancelAt remaining (attempt + 1) (backoff * 2)
        ⟨t.attempts + 1, backoff :: t.sleeps, t.outcome⟩
      | .httpResp status handlerOk =>
        if handlerOk then ⟨1, [backoff], .success⟩
        else if retryCondStatus status then
          let t := retryRest env cancelAt remaining (attempt + 1) (backoff * 2)
          ⟨t.attempts + 1, backoff :: t.sleeps, t.outcome⟩
        else ⟨1, [backoff], .handlerFailed status⟩

/-- makeRequestWithRetry from client.go: the loop runs attempt = 0 up
to retryMaxAttempts inclusive; iteration zero, unrolled here, issues
its request without any preceding sleep, and the remaining iterations
are retryRest starting at attempt 1 with the configured base
backoff. -/
def makeRequestWithRetry (retryMaxAttempts backoffBase : Nat)
    (env : Nat → AttemptResult) (cancelAt : Nat → Bool) : RetryTrace :=
  match env 0 with
  | .netErr =>
    let t := retryRest env cancelAt retryMaxAttempts 1 backoffBase
    ⟨t.attempts + 1, t.sleeps, t.outcome⟩
  | .httpResp status handlerOk =>
    if handlerOk then ⟨1, [], .success⟩
    else if retryCondStatus status then
      let t := retryRest env cancelAt retryMaxAttempts 1 backoffBase
      ⟨t.attempts + 1, t.sleeps, t.outcome⟩
    else ⟨1, [], .handlerFailed status⟩

/-! ## Enhanced pool construction and backpressure submission
(internal/worker/pool_enhanced.go, NewEnhancedPool and
SubmitTaskWithBackpressure) -/

/-- The backpressureLimit field set in NewEnhancedPool:
cfg.MaxConcurrentFetches * 2. -/
def backpressureLimit (maxConcurrentFetches : Nat) : Nat :=
  maxConcurrentFetches * 2

/-- Oracles resolving, at each step of the submission path, the shared
state it reads (isPaused, memoryPressure, queue depth) and the channel
selects it performs (context cancellation, task-channel readiness).
The argument is a logical time advanced at every observation. -/
structure SubmitEnv where
  pausedAt : Nat → Bool
  cancelAt : Nat → Bool
  memPressureAt : Nat → Bool
  depthAt : Nat → Nat
  chanFreeAt : Nat → Bool

/-- Externally visible effects of one submission call, in order. -/
inductive SubmitAction
  | bufferTask
  | pauseCall
  | resumeCall
  | sendTask
  deriving DecidableEq, Repr

/-- How a submission call can return.  queueFull is only produced by
the plain SubmitTask path, never by the backpressure path; diverged is
the fuel artifact standing for an execution still running. -/
inductive SubmitResult
  | sent
  | cancelled
  | queueFull
  | diverged
  deriving DecidableEq, Repr

/-- SubmitTask from pool.go, the plain path: a single select with a
default branch that returns the queue-full error when the channel is
not ready and the context not done. -/
def submitTask (chanFree ctxDone : Bool) : SubmitResult :=
  if chanFree then .sent
  else if ctxDone then .cancelled
  else .queueFull

/-- Exit of the 100 ms drain-poll loop inside
SubmitTaskWithBackpressure. -/
inductive PollResult
  | drained (t : Nat)
  | pollCancelled (t : Nat)
  | outOfFuel
  deriving DecidableEq, Repr

/-- The drain-poll loop: while the observed queue depth is at least
halfLimit (backpressureLimit / 2 at the call site), select between a
100 ms tick and ctx.Done. -/
def drainPollLoop (env : SubmitEnv) (halfLimit : Nat) :
    Nat → Nat → PollResult
  | 0, _ => .outOfFuel
  | fuel + 1, t =>
    if env.depthAt t < halfLimit then .drained (t + 1)
    else if env.cancelAt t then .pollCancelled (t + 1)
    else drainPollLoop env halfLimit fuel (t + 1)

/-- The final submission loop: select between sending on the task
channel, ctx.Done, and a 100 ms retry tick.  The send branch is taken
whenever the channel is ready. -/
def sendLoop (env : SubmitEnv) : Nat → Nat → SubmitResult × List SubmitAction
  | 0, _ => (.diverged, [])
  | fuel + 1, t =>
    if env.chanFreeAt t then (.sent, [.sendTask])
    else if env.cancelAt t then (.cancelled, [])
    else sendLoop env fuel (t + 1)

/-- SubmitTaskWithBackpressure from pool_enhanced.go over the oracles
of SubmitEnv, with bpLimit the backpressureLimit field.  Paused: append
the task to the overflow buffer, then wait for the resume signal or
ctx.Done, retrying the whole submission on resume.  Then, under memory
pressure, one depth-proportional backoff sleep racing ctx.Done.  Then,
at queue depth at least bpLimit, pause the workers, poll every 100 ms
until the depth falls below bpLimit / 2 (a cancellation here returns
without resuming, as in the source), and resume.  Finally the send
loop.  Fuel bounds the unbounded loops; exhausting it yields
diverged. -/
def submitBP (env : SubmitEnv) (bpLimit : Nat) :
    Nat → Nat → SubmitResult × List SubmitAction
  | 0, _ => (.diverged, [])
  | fuel + 1, t =>
    if env.pausedAt t then
      if env.cancelAt (t + 1) then (.cancelled, [.bufferTask])
      else
        let retried := submitBP env bpLimit fuel (t + 2)
        (retried.1, .bufferTask :: retried.2)
    else if env.memPressureAt t ∧ env.cancelAt (t + 1) then (.cancelled, [])
    else
      let t2 := if env.memPressureAt t then t + 2 else t + 1
      if bpLimit ≤ env.depthAt t2 then
        match drainPollLoop env (bpLimit / 2) fuel (t2 + 1) with
        | .outOfFuel => (.diverged, [.pauseCall])
        | .pollCancelled _ => (.cancelled, [.pauseCall])
        | .drained t3 =>
          let sendRes := sendLoop env fuel t3
          (sendRes.1, .pauseCall :: .resumeCall :: sendRes.2)
      else
        sendLoop env fuel (t2 + 1)

/-! ## Enhanced pool Stop (internal/worker/pool_enhanced.go, Stop and
flushBufferedTasks; internal/worker/pool.go, Stop) -/

/-- Worker behavior during the base Stop.  After the pool context is
cancelled each worker selects between draining the closed task channel
and ctx.Done; observeCancelFirst is the execution in which every
worker (and every result send) takes the ctx.Done branch, drainQueue
the one in which the queue is fully drained and all results
delivered. -/
inductive StopSchedule
  | drainQueue
  | observeCancelFirst
  deriving DecidableEq, Repr

/-- The enhanced-pool state that Stop manipulates: the task channel
contents, the overflow buffer, and the results delivered so far. -/
structure EnhancedPoolStopState where
  taskQueue : List WorkerTask
  droppedTasksBuffer : List WorkerTask
  results : List FileResult
  deriving DecidableEq, Repr

/-- flushBufferedTasks from pool_enhanced.go: the buffer is copied and
emptied, and each buffered task re-enters through
SubmitTaskWithBackpressure under one shared background context with a
five-minute timeout.  What the re-submissions do depends on whether
isPaused is still set when Stop runs.  Unpaused, each takes the send
branch onto the task channel.  Paused — after a memory-pressure pause
(the monitor is already stopped, so no resume will come) or after a
backpressure drain-poll whose submitter was cancelled mid-poll and
returned without resumeWorkers — each re-submission takes the paused
branch: it appends its task back to droppedTasksBuffer and waits on the
resume signal until the five-minute context expires, so the buffer ends
up with the same tasks and nothing reaches the channel. -/
def flushBufferedTasks (pausedAtStop : Bool) (s : EnhancedPoolStopState) :
    EnhancedPoolStopState :=
  if pausedAtStop then
    { s with droppedTasksBuffer := s.droppedTasksBuffer }
  else
    { s with taskQueue := s.taskQueue ++ s.droppedTasksBuffer,
             droppedTasksBuffer := [] }

/-- The base Pool.Stop from pool.go under a given worker schedule:
cancel the context, close the task channel, wait for the workers, close
the result channel.  Tasks still on the channel when a worker takes the
ctx.Done branch yield nothing; no synthetic results of any kind are
produced. -/
def basePoolStop (sched : StopSchedule) (process : WorkerTask → FileResult)
    (s : EnhancedPoolStopState) : EnhancedPoolStopState :=
  match sched with
  | .observeCancelFirst => s
  | .drainQueue =>
    { s with taskQueue := [], results := s.results ++ s.taskQueue.map process }

/-- Stop from pool_enhanced.go: stop the memory monitor, flush the
overflow buffer by re-submission (whose effect depends on the pause
flag at that moment), then run the base Stop. -/
def enhancedStop (pausedAtStop : Bool) (sched : StopSchedule)
    (process : WorkerTask → FileResult) (s : EnhancedPoolStopState) :
    EnhancedPoolStopState :=
  basePoolStop sched process (flushBufferedTasks pausedAtStop s)

/-! ## Theorems -/

/-- C10: calling Start on a pool that already has active workers
returns the error containing "worker pool is already running" and
leaves the pool state unchanged, in particular the active-worker count
keeps its previous value. -/
theorem poolStart_alreadyRunning (maxWorkers : Nat) (s : BasePoolState)
    (h : s.activeWorkers > 0) :
    poolStart maxWorkers s
      = (Except.error "worker pool is already running", s) := by
  simp [poolStart, h]

/-- Witness for poolStart_alreadyRunning at a pool with three active
workers. -/
theorem poolStart_alreadyRunning_witness :
    poolStart 50 ⟨3⟩ = (Except.error "worker pool is already running", ⟨3⟩) :=
  poolStart_alreadyRunning 50 ⟨3⟩ (by decide)

/-- C9: the memory monitor pressure flag rises only on a tick whose
sample exceeds 0.9 of the ceiling, falls only on a tick whose sample is
below 0.7 of the ceiling, and is otherwise unchanged with no action;
the rising edge is exactly a pause request and the falling edge exactly
a resume request. -/
theorem monitorMemoryStep_spec (p : Bool) (currentUse memoryLimit : Nat) :
    ((p = false ∧ (monitorMemoryStep p currentUse memoryLimit).1 = true) →
      10 * currentUse > 9 * memoryLimit) ∧
    ((p = true ∧ (monitorMemoryStep p currentUse memoryLimit).1 = false) →
      10 * currentUse < 7 * memoryLimit) ∧
    (¬(10 * currentUse > 9 * memoryLimit ∧ p = false) →
      ¬(10 * currentUse < 7 * memoryLimit ∧ p = true) →
      (monitorMemoryStep p currentUse memoryLimit).1 = p ∧
        (monitorMemoryStep p currentUse memoryLimit).2 = none) ∧
    ((monitorMemoryStep p currentUse memoryLimit).2 = some .doPause ↔
      p = false ∧ (monitorMemoryStep p currentUse memoryLimit).1 = true) ∧
    ((monitorMemoryStep p currentUse memoryLimit).2 = some .doResume ↔
      p = true ∧ (monitorMemoryStep p currentUse memoryLimit).1 = false) := by
  cases p <;> simp only [monitorMemoryStep] <;> split_ifs <;> simp_all

/-- Witness for monitorMemoryStep_spec: a sample in the hysteresis band
leaves a clear flag unchanged with no action. -/
theorem monitorMemoryStep_spec_witness :
    (monitorMemoryStep false 8 10).1 = false ∧
      (monitorMemoryStep false 8 10).2 = none :=
  (monitorMemoryStep_spec false 8 10).2.2.1 (by omega) (by omega)

/-- C7: a task whose declared size is at most the configured limit
passes the size check (it can never be reported oversize); a task whose
declared size exceeds the limit yields the oversize failure and the
worker never consults the fetch path at all, which is expressed by the
result being identical for arbitrary fetch oracles. -/
theorem processTask_oversize_spec (maxFileSize : Int) (enableBin : Bool)
    (utf8Valid : List Nat → Bool) (task : WorkerTask)
    (f g : Unit → Option (List Nat)) :
    ((task.size : Int) ≤ maxFileSize →
      (processTask maxFileSize enableBin utf8Valid task f).failure
        ≠ some .oversizeSkip) ∧
    ((task.size : Int) > maxFileSize →
      processTask maxFileSize enableBin utf8Valid task f
        = processTask maxFileSize enableBin utf8Valid task g ∧
      (processTask maxFileSize enableBin utf8Valid task f).failure
        = some .oversizeSkip) := by
  by_cases h : (task.size : Int) > maxFileSize
  · refine ⟨fun hle => absurd h (not_lt.2 hle), fun _ => ?_⟩
    simp [processTask, if_pos h]
  · refine ⟨fun _ => ?_, fun hgt => absurd hgt h⟩
    simp only [processTask, if_neg h]
    cases f () with
    | none => simp
    | some content =>
      dsimp only
      split_ifs <;> simp

/-- Witness for processTask_oversize_spec at limit 100: size 101 is
oversize, size exactly 100 is not. -/
theorem processTask_oversize_spec_witness :
    (processTask 100 true (fun _ => true) ⟨[], [], 101⟩
        (fun _ => none)).failure = some .oversizeSkip ∧
    (processTask 100 true (fun _ => true) ⟨[], [], 100⟩
        (fun _ => some [65])).failure ≠ some .oversizeSkip :=
  ⟨((processTask_oversize_spec 100 true (fun _ => true) ⟨[], [], 101⟩
      (fun _ => none) (fun _ => none)).2 (by decide)).2,
   (processTask_oversize_spec 100 true (fun _ => true) ⟨[], [], 100⟩
      (fun _ => some [65]) (fun _ => some [65])).1 (by decide)⟩

/-- C6 counterexample: the one-byte content 0x0B (vertical tab) is
counted non-text by the spec byte set, so the claim classifies it
binary (100 percent of inspected bytes outside the set), but
IsBinaryContent treats bytes 9 to 13 as printable and accepts it. -/
theorem isBinaryContent_spec_counterexample :
    IsBinaryContent [11] = false ∧ specIsBinaryContent [11] = true := by
  decide

/-- C6 (amended): the filter classifies content as binary iff, within
the first 8 KiB, some byte is zero or strictly more than 30 percent of
the inspected bytes are non-printable, where the printable bytes are
the ranges 0x09 to 0x0D and 0x20 to 0x7E (the source additionally
admits 0x0B and 0x0C, which the spec sentence excludes); an inspected
prefix with exactly 30 percent non-printable bytes is accepted, one
byte more is binary, and binary content yields the binary-skipped
failure. -/
theorem isBinaryContent_spec :
    (∀ content : List Nat,
      (IsBinaryContent content = true ↔
        (∃ b ∈ content.take 8192, b = 0) ∨
          3 * (content.take 8192).length <
            10 * ((content.take 8192).filter isNonPrintableByte).length)) ∧
    (∀ b : Nat,
      isNonPrintableByte b = true ↔ ¬((9 ≤ b ∧ b ≤ 13) ∨ (32 ≤ b ∧ b ≤ 126))) ∧
    IsBinaryContent [1, 1, 1, 65, 65, 65, 65, 65, 65, 65] = false ∧
    IsBinaryContent [1, 1, 1, 1, 65, 65, 65, 65, 65, 65] = true ∧
    (∀ (maxFileSize : Int) (utf8Valid : List Nat → Bool) (task : WorkerTask)
        (content : List Nat),
      ¬((task.size : Int) > maxFileSize) → IsBinaryContent content = true →
      (processTask maxFileSize true utf8Valid task
          (fun _ => some content)).failure = some .binarySkipped) := by
  refine ⟨?_, ?_, by decide, by decide, ?_⟩
  · intro content
    by_cases hlen : content.length = 0
    · rw [List.length_eq_zero] at hlen
      subst hlen
      simp [IsBinaryContent]
    · simp only [IsBinaryContent, if_neg hlen]
      split_ifs with hz
      · simp only [List.any_eq_true, decide_eq_true_eq] at hz
        simp only [true_iff]
        exact Or.inl hz
      · simp only [List.any_eq_true, decide_eq_true_eq] at hz
        push_neg at hz
        simp only [decide_eq_true_eq]
        constructor
        · intro h
          exact Or.inr h
        · rintro (⟨b, hb, rfl⟩ | h)
          · exact absurd rfl (hz _ hb)
          · exact h
  · intro b
    simp only [isNonPrintableByte, Bool.or_eq_true, Bool.and_eq_true,
      decide_eq_true_eq]
    omega
  · intro maxFileSize utf8Valid task content hsize hbin
    simp [processTask, if_neg hsize, hbin]

/-- Witness for isBinaryContent_spec: a null byte makes content binary
and the worker reports the binary-skipped failure for it. -/
theorem isBinaryContent_spec_witness :
    (processTask 100 true (fun _ => true) ⟨[], [], 10⟩
        (fun _ => some [0])).failure = some .binarySkipped :=
  isBinaryContent_spec.2.2.2.2 100 (fun _ => true) ⟨[], [], 10⟩ [0]
    (by decide) (by decide)

/-- ASCII lowering is idempotent on bytes. -/
theorem toLowerByte_idem (b : Nat) :
    toLowerByte (toLowerByte b) = toLowerByte b := by
  simp only [toLowerByte]
  split_ifs <;> omega

/-- ASCII lowering is idempotent on byte strings. -/
theorem toLowerStr_idem (s : List Nat) :
    toLowerStr (toLowerStr s) = toLowerStr s := by
  induction s with
  | nil => rfl
  | cons a t ih =>
    simp only [toLowerStr, List.map_cons] at ih ⊢
    rw [toLowerByte_idem]
    exact congrArg _ ih

/-- Normalized allow-list entries are fixed points of lowering, so
comparing the lowered path extension against them verbatim is exactly
a case-insensitive comparison. -/
theorem toLowerStr_normalizeExtension (s : List Nat) :
    toLowerStr (normalizeExtension s) = normalizeExtension s := by
  unfold normalizeExtension
  dsimp only
  split_ifs with h
  · exact toLowerStr_idem _
  · show toLowerStr (46 :: toLowerStr (trimSpaceStr s))
      = 46 :: toLowerStr (trimSpaceStr s)
    have ht := toLowerStr_idem (trimSpaceStr s)
    simp only [toLowerStr, List.map_cons] at ht ⊢
    rw [show toLowerByte 46 = 46 by decide]
    exact congrArg _ ht

/-- Every entry of a normalized allow-list is a fixed point of
lowering. -/
theorem mem_normalized_lower {exts : List (List Nat)} {e : List Nat}
    (he : e ∈ exts.map normalizeExtension) : toLowerStr e = e := by
  rcases List.mem_map.1 he with ⟨x, _, rfl⟩
  exact toLowerStr_normalizeExtension x

/-- IsAllowedFileType over a normalized non-empty allow-list passes a
path iff its extension matches an entry case-insensitively or its
lowered basename is a special filename. -/
theorem isAllowedFileType_normalized (exts : List (List Nat))
    (path : List Nat) (hne : exts ≠ []) :
    IsAllowedFileType (exts.map normalizeExtension) path = true ↔
      ((∃ e ∈ exts.map normalizeExtension,
          toLowerStr (filepathExt path) = toLowerStr e) ∨
        toLowerStr (filepathBase path) ∈ specialFiles) := by
  have hmap : (exts.map normalizeExtension).isEmpty = false := by
    cases exts with
    | nil => exact absurd rfl hne
    | cons a t => rfl
  simp only [IsAllowedFileType, hmap, Bool.false_eq_true, if_false,
    Bool.or_eq_true, List.any_eq_true, decide_eq_true_eq]
  constructor
  · rintro (⟨e, he, heq⟩ | ⟨sp, hsp, heq⟩)
    · exact Or.inl ⟨e, he, by rw [heq, toLowerStr_idem]⟩
    · exact Or.inr (heq ▸ hsp)
  · rintro (⟨e, he, heq⟩ | hmem)
    · exact Or.inl ⟨e, he, (mem_normalized_lower he).symm.trans heq.symm⟩
    · exact Or.inr ⟨_, hmem, rfl⟩

/-- C8: over an allow-list as the configuration loader produces it
(each entry trimmed, lowercased and dot-prefixed), a blob path passes
the enumeration-time filter iff it starts with one of the path-prefix
filters whenever any are supplied, and, whenever the allow-list is
non-empty, its extension matches an allowed entry case-insensitively
or its lowered basename is one of the fixed special filenames, which
pass regardless of extension; with an empty allow-list every extension
passes. -/
theorem shouldProcessFile_spec (exts pathFilter : List (List Nat))
    (path : List Nat) :
    shouldProcessFile (exts.map normalizeExtension) path pathFilter = true ↔
      ((pathFilter = [] ∨ ∃ f ∈ pathFilter, path.take f.length = f) ∧
        (exts = [] ∨
          (∃ e ∈ exts.map normalizeExtension,
            toLowerStr (filepathExt path) = toLowerStr e) ∨
          toLowerStr (filepathBase path) ∈ specialFiles)) := by
  rcases eq_or_ne exts [] with rfl | hne
  · simp [shouldProcessFile]
  · have hmap : (exts.map normalizeExtension).isEmpty = false := by
      cases exts with
      | nil => exact absurd rfl hne
      | cons a t => rfl
    simp only [shouldProcessFile, Bool.and_eq_true, Bool.or_eq_true,
      List.any_eq_true, decide_eq_true_eq, hmap, Bool.false_eq_true,
      false_or, List.isEmpty_iff]
    rw [isAllowedFileType_normalized exts path hne]
    simp [hne]

/-- The state used in the C4 counterexample: the defaults NewEnhancedPool
hard-codes, at current rate 5 requests per second with the last
adjustment at time zero. -/
def rlExample : AdaptiveRateLimiter :=
  { currentRate := 5
    minRate := 1
    maxRate := 100
    adjustmentFactor := 1 / 10
    backoffMultiplier := 1 / 2
    lastAdjustment := 0 }

/-- C4 counterexample: at used fraction 0.4 (limit 10, remaining 6)
observed 400 seconds after the last adjustment, the claim leaves the
rate unchanged at 5 (0.4 is not below its 0.3 speedup cutoff), but
UpdateRateLimitFromHeaders speeds up to 5.5 because the source cutoff
is 0.5. -/
theorem updateRateLimit_speedup_counterexample :
    (UpdateRateLimitFromHeaders rlExample 6 10 400).currentRate = 11 / 2 ∧
    (specObserveRate rlExample 6 10 400).currentRate = 5 ∧
    ((11 : ℚ) / 2) ≠ 5 := by
  refine ⟨?_, ?_, by norm_num⟩ <;>
    norm_num [UpdateRateLimitFromHeaders, specObserveRate, clampRate, rlExample]

/-- C4 (amended): with the default factors (slowdown 0.5, speedup step
0.1), an observation with used fraction above 0.8 halves the rate;
otherwise one with used fraction below 0.5 arriving strictly more than
five minutes after the last adjustment multiplies it by 1.1; otherwise
the rate is kept — in each case clamped to the configured bounds, with
the adjustment timestamp always set to the observation time.  (The
streaming client keeps a second, divergent adjustment path, modelled by
updateAdaptiveRateLimitClient: cutoff 0.3, factor 1.2, no time gate.) -/
theorem updateRateLimit_cases (st : AdaptiveRateLimiter)
    (remaining limit : Int) (now : ℚ)
    (hb : st.backoffMultiplier = 1 / 2) (ha : st.adjustmentFactor = 1 / 10) :
    ((((limit : ℚ) - (remaining : ℚ)) / (limit : ℚ) > 8 / 10 →
      (UpdateRateLimitFromHeaders st remaining limit now).currentRate
        = clampRate st (st.currentRate * (1 / 2))) ∧
    (¬(((limit : ℚ) - (remaining : ℚ)) / (limit : ℚ) > 8 / 10) →
      ((limit : ℚ) - (remaining : ℚ)) / (limit : ℚ) < 5 / 10 →
      now - st.lastAdjustment > 300 →
      (UpdateRateLimitFromHeaders st remaining limit now).currentRate
        = clampRate st (st.currentRate * (11 / 10))) ∧
    (¬(((limit : ℚ) - (remaining : ℚ)) / (limit : ℚ) > 8 / 10) →
      ¬(((limit : ℚ) - (remaining : ℚ)) / (limit : ℚ) < 5 / 10 ∧
          now - st.lastAdjustment > 300) →
      (UpdateRateLimitFromHeaders st remaining limit now).currentRate
        = clampRate st st.currentRate) ∧
    (UpdateRateLimitFromHeaders st remaining limit now).lastAdjustment
      = now) := by
  refine ⟨fun h8 => ?_, fun h8 h5 ht => ?_, fun h8 hno => ?_, rfl⟩
  · simp only [UpdateRateLimitFromHeaders, hb]
    split_ifs
    rfl
  · simp only [UpdateRateLimitFromHeaders, ha]
    split_ifs with h2
    · norm_num
    · exact absurd ⟨h5, ht⟩ h2
  · simp only [UpdateRateLimitFromHeaders]
    split_ifs
    rfl

/-- Witness for updateRateLimit_cases: a used fraction of 0.9 halves a
rate of 5 down to 2.5. -/
theorem updateRateLimit_cases_witness :
    (UpdateRateLimitFromHeaders rlExample 500 5000 60).currentRate
      = clampRate rlExample (rlExample.currentRate * (1 / 2)) :=
  (updateRateLimit_cases rlExample 500 5000 60 rfl rfl).1 (by norm_num)

/-- C5 counterexample: at construction NewEnhancedPool sets the rate to
the configured hourly quota divided by 3600 without clamping; with the
default quota of 100 the initial rate 1/36 lies strictly below the
minimum rate 1, violating the claimed invariant in the initial state. -/
theorem initialRate_below_min_counterexample :
    (newAdaptiveRateLimiter 100).currentRate
      < (newAdaptiveRateLimiter 100).minRate := by
  norm_num [newAdaptiveRateLimiter]

/-- The clamp lands inside the bounds whenever they are ordered. -/
theorem clampRate_bounds (st : AdaptiveRateLimiter) (r : ℚ)
    (h : st.minRate ≤ st.maxRate) :
    st.minRate ≤ clampRate st r ∧ clampRate st r ≤ st.maxRate := by
  simp only [clampRate]
  split_ifs <;> constructor <;> linarith

/-- Applying one observation keeps every field except the current rate
and the adjustment timestamp. -/
theorem updateRateLimit_fixed_fields (st : AdaptiveRateLimiter)
    (remaining limit : Int) (now : ℚ) :
    (UpdateRateLimitFromHeaders st remaining limit now).minRate = st.minRate ∧
    (UpdateRateLimitFromHeaders st remaining limit now).maxRate = st.maxRate := by
  constructor <;> rfl

/-- After any observation the current rate lies inside the bounds. -/
theorem updateRateLimit_in_bounds (st : AdaptiveRateLimiter)
    (remaining limit : Int) (now : ℚ) (h : st.minRate ≤ st.maxRate) :
    (UpdateRateLimitFromHeaders st remaining limit now).minRate ≤
      (UpdateRateLimitFromHeaders st remaining limit now).currentRate ∧
    (UpdateRateLimitFromHeaders st remaining limit now).currentRate ≤
      (UpdateRateLimitFromHeaders st remaining limit now).maxRate := by
  have hfix := updateRateLimit_fixed_fields st remaining limit now
  rw [hfix.1, hfix.2]
  exact clampRate_bounds st _ h

/-- Bounds after a non-empty observation sequence, for any starting
state with ordered bounds. -/
theorem runObservations_bounds :
    ∀ (obs : List RateObservation) (st : AdaptiveRateLimiter),
      st.minRate ≤ st.maxRate → obs ≠ [] →
      (runObservations st obs).minRate ≤ (runObservations st obs).currentRate ∧
      (runObservations st obs).currentRate ≤ (runObservations st obs).maxRate := by
  intro obs
  induction obs with
  | nil => intro st _ hobs; exact absurd rfl hobs
  | cons o rest ih =>
    intro st hmm _
    cases rest with
    | nil =>
      exact updateRateLimit_in_bounds st o.remaining o.limit o.now hmm
    | cons o2 rest2 =>
      have hfix := updateRateLimit_fixed_fields st o.remaining o.limit o.now
      exact ih (UpdateRateLimitFromHeaders st o.remaining o.limit o.now)
        (by rw [hfix.1, hfix.2]; exact hmm) (by simp)

/-- C5 (amended): for every state of the adaptive rate limiter reached
from construction (initial rate equal to the configured hourly quota
divided by 3600, bounds 1 and 100) by at least one header observation,
min-rate ≤ current-rate ≤ max-rate holds; the invariant can fail only
in the unclamped initial state itself. -/
theorem adaptiveRateLimiter_bounds (quota : Nat) (obs : List RateObservation)
    (hobs : obs ≠ []) :
    (runObservations (newAdaptiveRateLimiter quota) obs).minRate ≤
      (runObservations (newAdaptiveRateLimiter quota) obs).currentRate ∧
    (runObservations (newAdaptiveRateLimiter quota) obs).currentRate ≤
      (runObservations (newAdaptiveRateLimiter quota) obs).maxRate :=
  runObservations_bounds obs (newAdaptiveRateLimiter quota)
    (by norm_num [newAdaptiveRateLimiter]) hobs

/-- Witness for adaptiveRateLimiter_bounds after a single observation
on the default quota. -/
theorem adaptiveRateLimiter_bounds_witness :
    (runObservations (newAdaptiveRateLimiter 100) [⟨500, 5000, 60⟩]).minRate ≤
      (runObservations (newAdaptiveRateLimiter 100)
        [⟨500, 5000, 60⟩]).currentRate ∧
    (runObservations (newAdaptiveRateLimiter 100)
        [⟨500, 5000, 60⟩]).currentRate ≤
      (runObservations (newAdaptiveRateLimiter 100) [⟨500, 5000, 60⟩]).maxRate :=
  adaptiveRateLimiter_bounds 100 [⟨500, 5000, 60⟩] (by simp)

/-- The tail of the retry loop never issues more requests than
iterations remain. -/
theorem retryRest_attempts_le (env : Nat → AttemptResult)
    (cancelAt : Nat → Bool) :
    ∀ (remaining attempt backoff : Nat),
      (retryRest env cancelAt remaining attempt backoff).attempts ≤ remaining := by
  intro remaining
  induction remaining with
  | zero => intro a b; exact Nat.le_refl 0
  | succ n ih =>
    intro a b
    simp only [retryRest]
    split_ifs with hcan
    · exact Nat.zero_le _
    · cases henv : env a with
      | netErr => exact Nat.succ_le_succ (ih _ _)
      | httpResp status handlerOk =>
        dsimp only
        split_ifs
        · dsimp only; omega
        · exact Nat.succ_le_succ (ih _ _)
        · dsimp only; omega

/-- In the tail of the retry loop every issued request is preceded by
exactly one completed sleep. -/
theorem retryRest_sleeps_len (env : Nat → AttemptResult)
    (cancelAt : Nat → Bool) :
    ∀ (remaining attempt backoff : Nat),
      (retryRest env cancelAt remaining attempt backoff).sleeps.length
        = (retryRest env cancelAt remaining attempt backoff).attempts := by
  intro remaining
  induction remaining with
  | zero => intro a b; rfl
  | succ n ih =>
    intro a b
    simp only [retryRest]
    split_ifs with hcan
    · rfl
    · cases henv : env a with
      | netErr => simp [ih (a + 1) (b * 2)]
      | httpResp status handlerOk =>
        dsimp only
        split_ifs
        · rfl
        · simp [ih (a + 1) (b * 2)]
        · rfl

/-- The completed sleeps of the tail of the retry loop form the
geometric sequence starting at the running backoff value. -/
theorem retryRest_sleeps_get (env : Nat → AttemptResult)
    (cancelAt : Nat → Bool) :
    ∀ (remaining attempt backoff i : Nat),
      i < (retryRest env cancelAt remaining attempt backoff).sleeps.length →
      (retryRest env cancelAt remaining attempt backoff).sleeps[i]?
        = some (backoff * 2 ^ i) := by
  intro remaining
  induction remaining with
  | zero => intro a b i h; exact absurd h (by simp [retryRest])
  | succ n ih =>
    intro a b i
    simp only [retryRest]
    split_ifs with hcan
    · intro h; exact absurd h (by simp)
    · cases henv : env a with
      | netErr =>
        intro h
        cases i with
        | zero => simp
        | succ j =>
          dsimp only at h ⊢
          rw [List.getElem?_cons_succ, ih (a + 1) (b * 2) j (by simpa using h)]
          rw [show b * 2 * 2 ^ j = b * 2 ^ (j + 1) by ring]
      | httpResp status handlerOk =>
        dsimp only
        split_ifs
        · intro h
          cases i with
          | zero => simp
          | succ j => simp at h
        · intro h
          cases i with
          | zero => simp
          | succ j =>
            dsimp only at h ⊢
            rw [List.getElem?_cons_succ, ih (a + 1) (b * 2) j (by simpa using h)]
            rw [show b * 2 * 2 ^ j = b * 2 ^ (j + 1) by ring]
        · intro h
          cases i with
          | zero => simp
          | succ j => simp at h

/-- In the tail of the retry loop another request follows request i
only when attempt i was retryable. -/
theorem retryRest_retry_only (env : Nat → AttemptResult)
    (cancelAt : Nat → Bool) :
    ∀ (remaining attempt backoff i : Nat), attempt ≤ i →
      i + 1 < attempt + (retryRest env cancelAt remaining attempt backoff).attempts →
      shouldRetry (env i) = true := by
  intro remaining
  induction remaining with
  | zero => intro a b i hai hlt; simp [retryRest] at hlt; omega
  | succ n ih =>
    intro a b i hai hlt
    revert hlt
    simp only [retryRest]
    split_ifs with hcan
    · intro hlt; dsimp only at hlt; omega
    · cases henv : env a with
      | netErr =>
        intro hlt
        dsimp only at hlt
        rcases eq_or_lt_of_le hai with rfl | hlt2
        · simp [shouldRetry, henv]
        · exact ih (a + 1) (b * 2) i hlt2 (by omega)
      | httpResp status handlerOk =>
        dsimp only
        split_ifs with hok hretry
        · intro hlt; dsimp only at hlt; omega
        · intro hlt
          dsimp only at hlt
          rw [Bool.not_eq_true] at hok
          rcases eq_or_lt_of_le hai with rfl | hlt2
          · simp [shouldRetry, henv, hok, hretry]
          · exact ih (a + 1) (b * 2) i hlt2 (by omega)
        · intro hlt; dsimp only at hlt; omega

/-- In the tail of the retry loop a handler failure is returned
directly only for a non-retryable status. -/
theorem retryRest_handlerFailed (env : Nat → AttemptResult)
    (cancelAt : Nat → Bool) :
    ∀ (remaining attempt backoff : Nat) (s : Nat),
      (retryRest env cancelAt remaining attempt backoff).outcome
        = .handlerFailed s →
      retryCondStatus s = false := by
  intro remaining
  induction remaining with
  | zero => intro a b s hs; simp [retryRest] at hs
  | succ n ih =>
    intro a b s hs
    revert hs
    simp only [retryRest]
    split_ifs with hcan
    · intro hs; simp at hs
    · cases henv : env a with
      | netErr => exact ih (a + 1) (b * 2) s
      | httpResp status handlerOk =>
        dsimp only
        split_ifs with hok hretry
        · intro hs; simp at hs
        · exact ih (a + 1) (b * 2) s
        · intro hs
          cases hs
          rw [Bool.not_eq_true] at hretry
          exact hretry

/-- In the tail of the retry loop a cancelled exit means the
cancellation signal fired at some suspension point. -/
theorem retryRest_cancelled (env : Nat → AttemptResult)
    (cancelAt : Nat → Bool) :
    ∀ (remaining attempt backoff : Nat),
      (retryRest env cancelAt remaining attempt backoff).outcome = .cancelled →
      ∃ k, cancelAt k = true := by
  intro remaining
  induction remaining with
  | zero => intro a b hs; simp [retryRest] at hs
  | succ n ih =>
    intro a b hs
    revert hs
    simp only [retryRest]
    split_ifs with hcan
    · exact fun _ => ⟨a, hcan⟩
    · cases henv : env a with
      | netErr => exact ih (a + 1) (b * 2)
      | httpResp status handlerOk =>
        dsimp only
        split_ifs
        · intro hs; simp at hs
        · exact ih (a + 1) (b * 2)
        · intro hs; simp at hs

/-- C3 counterexample: a request answered with status 404 whose handler
succeeds (the raw-content 404 recovered by the API fallback inside the
handler) ends the loop immediately with success, so a 4xx status other
than 429 does not always terminate the loop with an error as the claim
states. -/
theorem retry_4xx_success_counterexample :
    makeRequestWithRetry 3 10 (fun _ => .httpResp 404 true) (fun _ => false)
      = ⟨1, [], .success⟩ ∧
    (RetryOutcome.success = .handlerFailed 404 → False) := by
  exact ⟨rfl, fun h => by cases h⟩

/-- C3 (amended): every call issues at most 1 + retry-max-attempts
requests; consecutive requests are separated by exactly one completed
sleep and the i-th sleep is base times 2 to the i; a further request
follows an attempt only when that attempt was a network error or a
handler failure with status 429 or at least 500; a handler failure
returned directly carries a non-retryable status (while a 4xx whose
handler succeeded, as in the raw-to-API fallback, ends the loop
successfully); and a cancelled exit happens only when the enclosing
context fired during a backoff sleep. -/
theorem makeRequestWithRetry_spec (maxA base : Nat)
    (env : Nat → AttemptResult) (cancelAt : Nat → Bool) :
    (makeRequestWithRetry maxA base env cancelAt).attempts ≤ maxA + 1 ∧
    (makeRequestWithRetry maxA base env cancelAt).sleeps.length + 1
      = (makeRequestWithRetry maxA base env cancelAt).attempts ∧
    (∀ i, i < (makeRequestWithRetry maxA base env cancelAt).sleeps.length →
      (makeRequestWithRetry maxA base env cancelAt).sleeps[i]?
        = some (base * 2 ^ i)) ∧
    (∀ i, i + 1 < (makeRequestWithRetry maxA base env cancelAt).attempts →
      shouldRetry (env i) = true) ∧
    (∀ s, (makeRequestWithRetry maxA base env cancelAt).outcome
        = .handlerFailed s → retryCondStatus s = false) ∧
    ((makeRequestWithRetry maxA base env cancelAt).outcome = .cancelled →
      ∃ k, cancelAt k = true) := by
  unfold makeRequestWithRetry
  cases henv : env 0 with
  | netErr =>
    dsimp only
    refine ⟨Nat.succ_le_succ (retryRest_attempts_le env cancelAt maxA 1 base),
      by rw [retryRest_sleeps_len env cancelAt maxA 1 base],
      fun i h => retryRest_sleeps_get env cancelAt maxA 1 base i h,
      fun i hi => ?_,
      fun s hs => retryRest_handlerFailed env cancelAt maxA 1 base s hs,
      fun hs => retryRest_cancelled env cancelAt maxA 1 base hs⟩
    cases i with
    | zero => simp [shouldRetry, henv]
    | succ j =>
      exact retryRest_retry_only env cancelAt maxA 1 base (j + 1)
        (by omega) (by omega)
  | httpResp status handlerOk =>
    dsimp only
    split_ifs with hok hretry
    · refine ⟨by dsimp only; omega, rfl, fun i h => absurd h (by simp),
        fun i hi => ?_, fun s hs => by simp at hs, fun hs => by simp at hs⟩
      dsimp only at hi
      omega
    · rw [Bool.not_eq_true] at hok
      refine ⟨Nat.succ_le_succ (retryRest_attempts_le env cancelAt maxA 1 base),
        by rw [retryRest_sleeps_len env cancelAt maxA 1 base],
        fun i h => retryRest_sleeps_get env cancelAt maxA 1 base i h,
        fun i hi => ?_,
        fun s hs => retryRest_handlerFailed env cancelAt maxA 1 base s hs,
        fun hs => retryRest_cancelled env cancelAt maxA 1 base hs⟩
      cases i with
      | zero => simp [shouldRetry, henv, hok, hretry]
      | succ j =>
        dsimp only at hi
        exact retryRest_retry_only env cancelAt maxA 1 base (j + 1)
          (by omega) (by omega)
    · rw [Bool.not_eq_true] at hretry
      refine ⟨by dsimp only; omega, rfl, fun i h => absurd h (by simp),
        fun i hi => ?_, fun s hs => ?_, fun hs => by simp at hs⟩
      · dsimp only at hi
        omega
      · dsimp only at hs
        cases hs
        exact hretry

/-- The attempt-result schedule used by the C3 witness: a retryable 503
on the first request, then success. -/
def envRetryW : Nat → AttemptResult :=
  fun n => if n = 0 then .httpResp 503 false else .httpResp 200 true

/-- Witness for makeRequestWithRetry_spec: with the 503-then-200
schedule the first attempt is retryable and the first completed sleep
is the base backoff. -/
theorem makeRequestWithRetry_spec_witness :
    shouldRetry (envRetryW 0) = true ∧
    (makeRequestWithRetry 3 10 envRetryW (fun _ => false)).sleeps[0]?
      = some (10 * 2 ^ 0) :=
  ⟨(makeRequestWithRetry_spec 3 10 envRetryW (fun _ => false)).2.2.2.1 0
      (by decide),
   (makeRequestWithRetry_spec 3 10 envRetryW (fun _ => false)).2.2.1 0
      (by decide)⟩

/-- The final submission loop never reports a full queue, sends at most
once (exactly once iff it exits sent), performs no pause or resume, and
exits cancelled only when the cancellation signal fired. -/
theorem sendLoop_spec (env : SubmitEnv) :
    ∀ (fuel t : Nat),
      (sendLoop env fuel t).1 ≠ .queueFull ∧
      (sendLoop env fuel t).2.count .sendTask ≤ 1 ∧
      ((sendLoop env fuel t).1 = .sent ↔
        (sendLoop env fuel t).2.count .sendTask = 1) ∧
      SubmitAction.pauseCall ∉ (sendLoop env fuel t).2 ∧
      SubmitAction.resumeCall ∉ (sendLoop env fuel t).2 ∧
      ((sendLoop env fuel t).1 = .cancelled → ∃ u, env.cancelAt u = true) := by
  intro fuel
  induction fuel with
  | zero =>
    intro t
    refine ⟨by simp [sendLoop], by simp [sendLoop], by simp [sendLoop],
      by simp [sendLoop], by simp [sendLoop], by simp [sendLoop]⟩
  | succ n ih =>
    intro t
    simp only [sendLoop]
    split_ifs with h1 h2
    · exact ⟨by simp, by simp, by simp, by simp, by simp, by simp⟩
    · exact ⟨by simp, by simp, by simp, by simp, by simp,
        fun _ => ⟨t, h2⟩⟩
    · exact ih (t + 1)

/-- The drain-poll loop exits drained only after observing a depth
below its threshold, and exits cancelled only when the cancellation
signal fired. -/
theorem drainPollLoop_spec (env : SubmitEnv) (halfLimit : Nat) :
    ∀ (fuel t : Nat),
      (∀ t2, drainPollLoop env halfLimit fuel t = .drained t2 →
        ∃ u, env.depthAt u < halfLimit) ∧
      (∀ t2, drainPollLoop env halfLimit fuel t = .pollCancelled t2 →
        ∃ u, env.cancelAt u = true) := by
  intro fuel
  induction fuel with
  | zero =>
    intro t
    exact ⟨fun t2 h => by simp [drainPollLoop] at h,
      fun t2 h => by simp [drainPollLoop] at h⟩
  | succ n ih =>
    intro t
    simp only [drainPollLoop]
    split_ifs with h1 h2
    · exact ⟨fun t2 _ => ⟨t, h1⟩, fun t2 h => by simp at h⟩
    · exact ⟨fun t2 h => by simp at h, fun t2 _ => ⟨t, h2⟩⟩
    · exact ih (t + 1)

/-- C1 (amended): over the backpressure limit the enhanced pool
actually constructs — twice max-concurrent-fetches, not 0.8 times it —
a submission call never returns the queue-full error (only the plain
SubmitTask path can), places the task on the channel at most once and
exactly once iff it returns sent, pauses the workers only after
observing a queue depth of at least 2 C, resumes only after observing
one strictly below C, and returns the cancellation error only when the
cancel signal fired at a suspension point. -/
theorem submitBP_spec (env : SubmitEnv) (C : Nat) :
    ∀ (fuel t : Nat),
      (submitBP env (backpressureLimit C) fuel t).1 ≠ .queueFull ∧
      (submitBP env (backpressureLimit C) fuel t).2.count .sendTask ≤ 1 ∧
      ((submitBP env (backpressureLimit C) fuel t).1 = .sent ↔
        (submitBP env (backpressureLimit C) fuel t).2.count .sendTask = 1) ∧
      (SubmitAction.pauseCall ∈ (submitBP env (backpressureLimit C) fuel t).2 →
        ∃ u, 2 * C ≤ env.depthAt u) ∧
      (SubmitAction.resumeCall ∈ (submitBP env (backpressureLimit C) fuel t).2 →
        ∃ u, env.depthAt u < C) ∧
      ((submitBP env (backpressureLimit C) fuel t).1 = .cancelled →
        ∃ u, env.cancelAt u = true) := by
  intro fuel
  induction fuel with
  | zero =>
    intro t
    exact ⟨by simp [submitBP], by simp [submitBP], by simp [submitBP],
      by simp [submitBP], by simp [submitBP], by simp [submitBP]⟩
  | succ n ih =>
    intro t
    simp only [submitBP]
    by_cases hp : env.pausedAt t = true
    · rw [if_pos hp]
      by_cases hcan : env.cancelAt (t + 1) = true
      · rw [if_pos hcan]
        exact ⟨by decide, by decide, by decide,
          fun hm => absurd hm (by decide), fun hm => absurd hm (by decide),
          fun _ => ⟨t + 1, hcan⟩⟩
      · rw [if_neg hcan]
        obtain ⟨ihA, ihB, ihC, ihD, ihE, ihF⟩ := ih (t + 2)
        dsimp only
        refine ⟨ihA, ?_, ?_, fun hm => ihD ?_, fun hm => ihE ?_, ihF⟩
        · simpa [List.count_cons] using ihB
        · simpa [List.count_cons] using ihC
        · simpa using hm
        · simpa using hm
    · rw [if_neg hp]
      by_cases hmc : env.memPressureAt t = true ∧ env.cancelAt (t + 1) = true
      · rw [if_pos hmc]
        exact ⟨by decide, by decide, by decide,
          fun hm => absurd hm (by decide), fun hm => absurd hm (by decide),
          fun _ => ⟨t + 1, hmc.2⟩⟩
      · rw [if_neg hmc]
        set t2 := if env.memPressureAt t = true then t + 2 else t + 1 with ht2
        by_cases hdepth : backpressureLimit C ≤ env.depthAt t2
        · rw [if_pos hdepth]
          have hhalf : backpressureLimit C / 2 = C := by
            unfold backpressureLimit; omega
          have hpauseObs : ∃ u, 2 * C ≤ env.depthAt u :=
            ⟨t2, by unfold backpressureLimit at hdepth; omega⟩
          cases hd : drainPollLoop env (backpressureLimit C / 2) n (t2 + 1) with
          | drained t3 =>
            dsimp only
            obtain ⟨sA, sB, sC, sD, sE, sF⟩ := sendLoop_spec env n t3
            refine ⟨sA, ?_, ?_, fun _ => hpauseObs, fun _ => ?_, sF⟩
            · simpa [List.count_cons] using sB
            · simpa [List.count_cons] using sC
            · obtain ⟨u, hu⟩ := (drainPollLoop_spec env _ n (t2 + 1)).1 t3 hd
              exact ⟨u, by rw [hhalf] at hu; exact hu⟩
          | pollCancelled t4 =>
            dsimp only
            exact ⟨by decide, by decide, by decide, fun _ => hpauseObs,
              fun hm => absurd hm (by decide),
              fun _ => (drainPollLoop_spec env _ n (t2 + 1)).2 t4 hd⟩
          | outOfFuel =>
            dsimp only
            exact ⟨by decide, by decide, by decide, fun _ => hpauseObs,
              fun hm => absurd hm (by decide), fun hc => by simp at hc⟩
        · rw [if_neg hdepth]
          obtain ⟨sA, sB, sC, sD, sE, sF⟩ := sendLoop_spec env n (t2 + 1)
          exact ⟨sA, sB, sC, fun hm => absurd hm sD, fun hm => absurd hm sE, sF⟩

/-- The submission environment of the C1 counterexample: pool running
and unpaused, no memory pressure, queue depth pinned at 80, channel
always ready, never cancelled. -/
def submitEnvDepth80 : SubmitEnv :=
  { pausedAt := fun _ => false
    cancelAt := fun _ => false
    memPressureAt := fun _ => false
    depthAt := fun _ => 80
    chanFreeAt := fun _ => true }

/-- C1 counterexample: with max-concurrent-fetches C = 100 the claimed
threshold 0.8 C is 80, and a submission observing queue depth 80
(which reaches it, as 10 times 80 is at least 8 times 100) sends
straight to the channel without any pause, because NewEnhancedPool sets
the backpressure limit to 2 C = 200, not 0.8 C. -/
theorem submitBP_threshold_counterexample :
    backpressureLimit 100 = 200 ∧
    10 * 80 ≥ 8 * 100 ∧
    submitBP submitEnvDepth80 (backpressureLimit 100) 5 0
      = (.sent, [.sendTask]) ∧
    SubmitAction.pauseCall ∉
      (submitBP submitEnvDepth80 (backpressureLimit 100) 5 0).2 := by
  refine ⟨rfl, by omega, by decide, by decide⟩

/-- The submission environment of the C1 witness: a first observation
at depth 4 triggers the pause at limit 4 (C = 2), the queue then drains
to 0 and the channel accepts. -/
def submitEnvPauseW : SubmitEnv :=
  { pausedAt := fun _ => false
    cancelAt := fun _ => false
    memPressureAt := fun _ => false
    depthAt := fun u => if u ≤ 1 then 4 else 0
    chanFreeAt := fun _ => true }

/-- Witness for submitBP_spec: at C = 2 the pause really occurs and the
theorem yields an observed depth of at least 2 C. -/
theorem submitBP_spec_witness :
    ∃ u, 2 * 2 ≤ submitEnvPauseW.depthAt u :=
  (submitBP_spec submitEnvPauseW 2 5 0).2.2.2.1 (by decide)

/-- The single task of the C2 counterexample scenario. -/
def stopTaskW : WorkerTask :=
  { path := strBytes "a.go", sha := strBytes "abc123", size := 10 }

/-- The worker processing function of the C2 counterexample. -/
def stopProcessW : WorkerTask → FileResult :=
  fun tk => { path := tk.path, size := tk.size, content := none,
              failure := some .fetchFailed }

/-- C2 counterexample: submit one task (it sits on the task channel,
the pool unpaused, the overflow buffer empty) and stop before any
worker dequeues it, in the legal execution where the workers observe
the cancelled context first; Stop returns with no result at all for
that task — zero results rather than the exactly one synthetic
crawl-failed result the claim demands (the source emits no synthetic
results anywhere). -/
theorem enhancedStop_orphan_counterexample :
    (enhancedStop false .observeCancelFirst stopProcessW
        { taskQueue := [stopTaskW], droppedTasksBuffer := [],
          results := [] }).results = [] ∧
    ((enhancedStop false .observeCancelFirst stopProcessW
        { taskQueue := [stopTaskW], droppedTasksBuffer := [],
          results := [] }).results.length = 1 → False) := by
  exact ⟨rfl, by decide⟩

/-- C2 (amended): Stop never emits synthetic crawl-failed results — no
synthetic results exist in the source; the results after Stop are
exactly those already delivered plus whatever the workers still drain.
Its flush re-submits each buffered task through the backpressure
submission path: with the pool unpaused at Stop the buffer empties onto
the task channel, but with the pause flag still set at Stop each
re-submission re-buffers its task and times out, so Stop returns with
the overflow buffer still holding them.  A task on the channel yields
its result only in the drain execution; when the workers observe the
cancelled context first, a submitted undequeued task yields no result
at all. -/
theorem enhancedStop_spec (pausedAtStop : Bool) (sched : StopSchedule)
    (process : WorkerTask → FileResult) (s : EnhancedPoolStopState) :
    (enhancedStop pausedAtStop .observeCancelFirst process s).results
      = s.results ∧
    (enhancedStop false sched process s).droppedTasksBuffer = [] ∧
    (enhancedStop false .drainQueue process s).results
      = s.results ++ (s.taskQueue ++ s.droppedTasksBuffer).map process ∧
    (enhancedStop true sched process s).droppedTasksBuffer
      = s.droppedTasksBuffer ∧
    (enhancedStop true .drainQueue process s).results
      = s.results ++ s.taskQueue.map process ∧
    (enhancedStop pausedAtStop .drainQueue process s).taskQueue = [] := by
  cases sched <;> cases pausedAtStop <;>
    simp [enhancedStop, basePoolStop, flushBufferedTasks]
